import Mathlib

/-!
# Campus Registrar (`assignment.py`): shallow embedding and verification

This file embeds the enrollment/persistence engine of the Python campus
registrar in Lean 4 and proves the specified properties about it.

Modelling conventions:
* Python `dict` (insertion-ordered, unique keys) is an association list
  `List (κ × β)`; `dictGet` returns the first binding, `dictSet` is
  `d[k] = v` (overwrite in place, append if fresh), `dictUpdate` mutates
  the value bound to a key in place.
* Python `float` values (grades, GPAs) are modelled as `Rat`; every
  concrete value appearing in the program and the properties is exactly
  representable, so arithmetic agrees with the Python source.
* The `enrolled` field of a course is a Python `set` after `add_course`
  but a JSON *list* after `load_courses` (the source's
  `c.setdefault("enrolled", set())` only fires when the key is absent).
  `EnrolledVal` keeps both shapes apart; `len` works on both
  (`EnrolledVal.size`), while `.add` raises `AttributeError` on the list
  shape, which the embedding surfaces as an explicit error outcome.
* CSV cells are modelled at the tokenised level: a cell that Python's
  `int(...)` / `float(...)` would fail to convert is `none`.  The decimal
  text produced by `csv.DictWriter` for an `int`/`float` converts back to
  the same value, so `save_*` emits already-converted cells.
-/

/-- `dict.get`-style first lookup in an association list (`k in d` / `d[k]`). -/
def dictGet {κ β : Type} [DecidableEq κ] (d : List (κ × β)) (k : κ) : Option β :=
  (d.find? (fun p => p.1 = k)).map (·.2)

/-- `d[k] = v` on a Python dict: overwrite the existing binding in place,
else append a fresh one. -/
def dictSet {κ β : Type} [DecidableEq κ] (d : List (κ × β)) (k : κ) (v : β) :
    List (κ × β) :=
  if d.any (fun p => decide (p.1 = k)) then
    d.map (fun p => if p.1 = k then (k, v) else p)
  else
    d ++ [(k, v)]

/-- In-place mutation of the object bound to key `k` (Python dict values are
mutable objects mutated through the lookup). -/
def dictUpdate {κ β : Type} [DecidableEq κ] (d : List (κ × β)) (k : κ) (f : β → β) :
    List (κ × β) :=
  d.map (fun p => if p.1 = k then (p.1, f p.2) else p)

/-- A student record: `{"name": ..., "year": ..., "gpa": ...}`. -/
structure Student where
  name : String
  year : Int
  gpa : Rat
deriving DecidableEq, Repr

/-- The `enrolled` field of a course: a Python `set` (as built by
`add_course` / restored by `save_courses`) or a JSON list (as left by
`load_courses` on a present field). -/
inductive EnrolledVal where
  | eset (s : Finset Int)
  | elist (l : List Int)
deriving DecidableEq

/-- Python `len` on the `enrolled` value (works on both shapes). -/
def EnrolledVal.size : EnrolledVal → Nat
  | .eset s => s.card
  | .elist l => l.length

/-- Membership in the `enrolled` value, shape-independent. -/
def EnrolledVal.memb (v : EnrolledVal) (i : Int) : Prop :=
  match v with
  | .eset s => i ∈ s
  | .elist l => i ∈ l

/-- A course record:
`{"title", "credits", "capacity", "prereqs", "enrolled"}`. -/
structure Course where
  title : String
  credits : Int
  capacity : Int
  prereqs : List String
  enrolled : EnrolledVal
deriving DecidableEq

/-- An enrollment row: `{"student_id", "course_code", "grade"}`,
`grade = None` until recorded. -/
structure Enrollment where
  student_id : Int
  course_code : String
  grade : Option Rat
deriving DecidableEq, Repr

/-- The three global collections `students`, `courses`, `enrollments`. -/
structure RegState where
  students : List (Int × Student)
  courses : List (String × Course)
  enrollments : List Enrollment
deriving DecidableEq

/-- Outcome of `enroll_student` (each constructor is one console message /
the success path; `attrError` is the `AttributeError` raised by `.add` on a
list-shaped `enrolled`). -/
inductive EnrollResult where
  | invalid
  | full
  | already
  | missingPre
  | ok
  | attrError
deriving DecidableEq, Repr

/-- `enroll_student` from the source, on already-parsed inputs (the
`input()` conversion belongs to the excluded CLI shell):
check student/course existence, capacity, duplicate pair, prerequisites in
that order; on success append the enrollment row, then add the student to
the course's `enrolled` set.  The append happens before the `.add`, so the
`AttributeError` path leaves the appended row behind. -/
def enroll_student (st : RegState) (sid : Int) (code : String) :
    EnrollResult × RegState :=
  match dictGet st.students sid, dictGet st.courses code with
  | some _, some course =>
    if course.capacity ≤ (course.enrolled.size : Int) then
      (.full, st)
    else if st.enrollments.any
        (fun e => decide (e.student_id = sid ∧ e.course_code = code)) then
      (.already, st)
    else if course.prereqs.any (fun pre =>
        (st.enrollments.filter (fun e => decide (e.student_id = sid))).all
          (fun e => decide (e.course_code ≠ pre))) then
      (.missingPre, st)
    else
      match course.enrolled with
      | .eset s =>
        (.ok,
          { st with
            enrollments := st.enrollments ++ [⟨sid, code, none⟩],
            courses := dictUpdate st.courses code
              (fun c => { c with enrolled := .eset (insert sid s) }) })
      | .elist _ =>
        (.attrError,
          { st with enrollments := st.enrollments ++ [⟨sid, code, none⟩] })
  | _, _ => (.invalid, st)

/-- Set the grade of the first enrollment row matching the pair;
`none` when no row matches. -/
def setFirstGrade (sid : Int) (code : String) (g : Rat) :
    List Enrollment → Option (List Enrollment)
  | [] => none
  | e :: rest =>
    if e.student_id = sid ∧ e.course_code = code then
      some ({ e with grade := some g } :: rest)
    else
      (setFirstGrade sid code g rest).map (e :: ·)

/-- `record_grade` from the source: scan `enrollments` for the pair, set the
grade on the first match; print "Enrollment not found." (here `false`) when
the scan falls through. -/
def record_grade (st : RegState) (sid : Int) (code : String) (g : Rat) :
    Bool × RegState :=
  match setFirstGrade sid code g st.enrollments with
  | some l => (true, { st with enrollments := l })
  | none => (false, st)

/-- Result of `transcript`: student not found, an uncaught `KeyError` on
`courses[code]` (carrying the missing code), or the printed rows together
with the GPA line (`none` when no graded enrollment exists). -/
inductive TranscriptResult where
  | notFound
  | keyError (code : String)
  | ok (rows : List (String × String × Option Rat)) (gpa : Option Rat)
deriving DecidableEq, Repr

/-- The per-row body of the transcript loop: each row of the student's
enrollments is printed as `(code, courses[code]["title"], grade)`; the
unguarded `courses[code]` lookup raises `KeyError` for a dangling code. -/
def transcriptRows (courses : List (String × Course)) :
    List Enrollment → Except String (List (String × String × Option Rat))
  | [] => .ok []
  | e :: rest =>
    match dictGet courses e.course_code with
    | none => .error e.course_code
    | some c => (transcriptRows courses rest).map ((e.course_code, c.title, e.grade) :: ·)

/-- `transcript` from the source: reject an unknown student, then walk the
student's enrollment rows accumulating the non-`None` grades; the GPA is
`total_points / total_credits` and is only printed when
`total_credits > 0`. -/
def transcript (st : RegState) (sid : Int) : TranscriptResult :=
  if (dictGet st.students sid).isNone then .notFound
  else
    match transcriptRows st.courses
        (st.enrollments.filter (fun e => decide (e.student_id = sid))) with
    | .error c => .keyError c
    | .ok rows =>
      let graded := (st.enrollments.filter
        (fun e => decide (e.student_id = sid))).filterMap (·.grade)
      .ok rows
        (if 0 < graded.length then some (graded.sum / (graded.length : Rat)) else none)

/-- Stable descending insertion by GPA: walk past strictly greater GPAs,
so an element inserted later (i.e. earlier in the original list) lands
before previously inserted equal GPAs. -/
def insertDescGpa (x : Int × Student) : List (Int × Student) → List (Int × Student)
  | [] => [x]
  | y :: ys => if x.2.gpa < y.2.gpa then y :: insertDescGpa x ys else x :: y :: ys

/-- Python's `sorted(students.items(), key=lambda x: x[1]["gpa"],
reverse=True)`: a stable sort, descending by GPA, modelled as stable
insertion sort (any stable descending sort computes the same function). -/
def sortStudentsByGpaDesc (l : List (Int × Student)) : List (Int × Student) :=
  l.foldr insertDescGpa []

/-- Analytics choice 1: the sorted items truncated to `n` (`[:n]`). -/
def top_students_by_gpa (students : List (Int × Student)) (n : Nat) :
    List (Int × Student) :=
  (sortStudentsByGpaDesc students).take n

/-- Analytics choice 2, for one course: `len(enrolled) / capacity * 100`
and the strict `fill > 90` warning flag; `none` is the
`ZeroDivisionError` raised when `capacity == 0`. -/
def fill_rate (c : Course) : Option (Rat × Bool) :=
  if c.capacity = 0 then none
  else
    let fill : Rat := (c.enrolled.size : Rat) / (c.capacity : Rat) * 100
    some (fill, decide (90 < fill))

/-- A tokenised `students.csv` row as `csv.DictReader` yields it; a cell on
which Python's `int(...)` / `float(...)` conversion raises is `none`. -/
structure StudentRow where
  student_id : Option Int
  full_name : String
  year : Option Int
  gpa : Option Rat
deriving DecidableEq, Repr

/-- The body of the `load_students` row loop: a succeeding row is a dict
assignment `students[int(row["student_id"])] = {...}`; a row whose
conversion raises is skipped by `continue`. -/
def loadStudentsStep (acc : List (Int × Student)) (row : StudentRow) :
    List (Int × Student) :=
  match row.student_id, row.year, row.gpa with
  | some i, some y, some g => dictSet acc i ⟨row.full_name, y, g⟩
  | _, _, _ => acc

/-- `load_students`: `none` is a missing file (the global stays `{}`);
each row is parsed independently inside its own `try`. -/
def load_students (file : Option (List StudentRow)) : List (Int × Student) :=
  match file with
  | none => []
  | some rows => rows.foldl loadStudentsStep []

/-- A students row on which all three conversions succeed. -/
def wellFormedStudentRow (row : StudentRow) : Bool :=
  row.student_id.isSome && row.year.isSome && row.gpa.isSome

/-- `save_students`: one row per student in dict (insertion) order, all
cells convertible back.  (The timestamped backup copy is a pure
file-system effect, outside the modelled state.) -/
def save_students (students : List (Int × Student)) : List StudentRow :=
  students.map (fun p => ⟨some p.1, p.2.name, some p.2.year, some p.2.gpa⟩)

/-- A decoded course value of `courses.json`; `enrolled` is `none` when the
key is absent in the JSON object, otherwise the decoded array. -/
structure JsonCourse where
  title : String
  credits : Int
  capacity : Int
  prereqs : List String
  enrolled : Option (List Int)
deriving DecidableEq

/-- `load_courses`: outer `none` is a missing file, `some none` is a
`json.load` failure — in both cases the global keeps its startup value
`{}`.  On success the decoded mapping is installed wholesale and
`c.setdefault("enrolled", set())` gives an absent field the empty set while
leaving a present field as the decoded *list*. -/
def load_courses (file : Option (Option (List (String × JsonCourse)))) :
    List (String × Course) :=
  match file with
  | none => []
  | some none => []
  | some (some j) =>
    j.map (fun p =>
      (p.1,
        { title := p.2.title, credits := p.2.credits,
          capacity := p.2.capacity, prereqs := p.2.prereqs,
          enrolled :=
            match p.2.enrolled with
            | none => .eset ∅
            | some l => .elist l }))

/-- `list(...)` applied to an `enrolled` value by the first loop of
`save_courses` (a set is listed — order unspecified in Python, fixed here
as ascending; a list is left as is). -/
def enrolledToList : EnrolledVal → List Int
  | .eset s => s.sort (· ≤ ·)
  | .elist l => l

/-- `save_courses`: the first loop converts set-shaped `enrolled` fields to
lists in place, `json.dump` writes that shape, the second loop converts
every list-shaped field back to a set.  Returns (file contents, in-memory
courses after the call). -/
def save_courses (courses : List (String × Course)) :
    List (String × JsonCourse) × List (String × Course) :=
  (courses.map (fun p =>
      (p.1,
        { title := p.2.title, credits := p.2.credits,
          capacity := p.2.capacity, prereqs := p.2.prereqs,
          enrolled := some (enrolledToList p.2.enrolled) })),
   courses.map (fun p =>
      (p.1, { p.2 with enrolled := .eset (enrolledToList p.2.enrolled).toFinset })))

/-- The `grade` cell of an `enrollments.csv` row: the empty string, or
nonempty text on which `float(...)` succeeds (`val (some g)`) or raises
(`val none`). -/
inductive GradeCell where
  | empty
  | val (g : Option Rat)
deriving DecidableEq, Repr

/-- A tokenised `enrollments.csv` row. -/
structure EnrollmentRow where
  student_id : Option Int
  course_code : String
  grade : GradeCell
deriving DecidableEq, Repr

/-- One row of the `load_enrollments` loop: `None` for an empty grade cell,
otherwise the converted float; any conversion failure skips the row. -/
def parseEnrollmentRow (row : EnrollmentRow) : Option Enrollment :=
  match row.student_id, row.grade with
  | some i, .empty => some ⟨i, row.course_code, none⟩
  | some i, .val (some g) => some ⟨i, row.course_code, some g⟩
  | _, _ => none

/-- `load_enrollments`: `none` is a missing file (global stays `[]`);
rows are parsed independently, failures skipped. -/
def load_enrollments (file : Option (List EnrollmentRow)) : List Enrollment :=
  match file with
  | none => []
  | some rows => rows.filterMap parseEnrollmentRow

/-- `save_enrollments`: one row per enrollment in order; `csv.DictWriter`
writes `None` as the empty string. -/
def save_enrollments (enrollments : List Enrollment) : List EnrollmentRow :=
  enrollments.map (fun e =>
    ⟨some e.student_id, e.course_code,
      match e.grade with
      | none => .empty
      | some g => .val (some g)⟩)

/-- A sequence of `enroll_student` calls (menu option 4 repeated), keeping
only the evolving state. -/
def enrollSeq (st : RegState) (ops : List (Int × String)) : RegState :=
  ops.foldl (fun s p => (enroll_student s p.1 p.2).2) st

/-- A sample course for concrete instantiations: capacity 2, no
prerequisites, nobody enrolled. -/
def sampleCourse : Course := ⟨"Intro", 3, 2, [], .eset ∅⟩

/-- A sample registrar state: one student, one course, no enrollments. -/
def sampleState : RegState :=
  ⟨[(1, ⟨"Alice", 1, (39 : Rat) / 10⟩)], [("CS", sampleCourse)], []⟩

/-- A sample state with one not-yet-graded enrollment row. -/
def gradeState : RegState :=
  ⟨[(1, ⟨"Alice", 1, 4⟩)], [("CS", sampleCourse)], [⟨1, "CS", none⟩]⟩

/-- Spec side: the non-`None` grades of a student's enrollment rows, in
row order. -/
def studentGrades (st : RegState) (sid : Int) : List Rat :=
  (st.enrollments.filter (fun e => decide (e.student_id = sid))).filterMap (·.grade)

/-- A sample state for the transcript example: graded 90 and 80 plus one
ungraded enrollment. -/
def transcriptState : RegState :=
  ⟨[(1, ⟨"Alice", 1, 4⟩)],
   [("A", ⟨"Alg", 3, 30, [], .eset ∅⟩), ("B", ⟨"Bio", 3, 30, [], .eset ∅⟩),
    ("C", ⟨"Chem", 3, 30, [], .eset ∅⟩)],
   [⟨1, "A", some 90⟩, ⟨1, "B", some 80⟩, ⟨1, "C", none⟩]⟩

/-- A state whose single enrollment row references a course code that is
absent from the courses mapping. -/
def danglingState : RegState :=
  ⟨[(1, ⟨"Alice", 1, 4⟩)], [], [⟨1, "GHOST", some 90⟩]⟩

/-- A capacity-10 course with nine enrolled students (here in the
list shape; `len` is shape-independent). -/
def fullCourse : Course := ⟨"T", 3, 10, [], .elist [1, 2, 3, 4, 5, 6, 7, 8, 9]⟩

/-- A zero-capacity course. -/
def zeroCourse : Course := ⟨"Z", 3, 0, [], .eset ∅⟩

/-- The C8 example: students A and B at GPA 3.9 and C at 3.5, inserted
in order A, B, C. -/
def exampleStudents : List (Int × Student) :=
  [(10, ⟨"A", 1, (39 : Rat) / 10⟩), (11, ⟨"B", 1, (39 : Rat) / 10⟩),
   (12, ⟨"C", 1, (35 : Rat) / 10⟩)]

/-- A course whose `enrolled` set holds student 1, for the save/load
round trip. -/
def courseWithOne : Course := ⟨"Intro", 3, 30, [], .eset {1}⟩

/-! ## Association-list lemmas -/

theorem dictGet_nil {κ β : Type} [DecidableEq κ] (k : κ) :
    dictGet ([] : List (κ × β)) k = none := rfl

theorem dictGet_cons {κ β : Type} [DecidableEq κ] (k' : κ) (v : β)
    (d : List (κ × β)) (k : κ) :
    dictGet ((k', v) :: d) k = if k' = k then some v else dictGet d k := by
  by_cases h : k' = k <;> simp [dictGet, List.find?_cons, h]

theorem dictGet_dictUpdate {κ β : Type} [DecidableEq κ] (d : List (κ × β))
    (k : κ) (f : β → β) (k' : κ) :
    dictGet (dictUpdate d k f) k' =
      if k' = k then (dictGet d k').map f else dictGet d k' := by
  induction d with
  | nil => by_cases h : k' = k <;> simp [dictUpdate, dictGet, h]
  | cons p rest ih =>
    obtain ⟨a, b⟩ := p
    by_cases hak : a = k
    · by_cases hak' : a = k'
      · subst hak
        subst hak'
        simp [dictUpdate, dictGet_cons]
      · subst hak
        have hk'a : ¬ k' = a := fun h => hak' h.symm
        have := ih
        simp [dictUpdate, dictGet_cons, hak', hk'a] at this ⊢
        exact this
    · by_cases hak' : a = k'
      · subst hak'
        simp [dictUpdate, dictGet_cons, hak]
      · have hk'a : ¬ k' = a := fun h => hak' h.symm
        have := ih
        simp [dictUpdate, dictGet_cons, hak, hak', hk'a] at this ⊢
        exact this

/-! ## The derived-`enrolled` invariant (spec §3/§8) -/

/-- The (student, course) key of an enrollment row. -/
def pairKey (e : Enrollment) : Int × String := (e.student_id, e.course_code)

/-- Spec side: the set of student ids having an enrollment row for `code`. -/
def rowIds (enrollments : List Enrollment) (code : String) : Finset Int :=
  ((enrollments.filter (fun e => decide (e.course_code = code))).map
    (·.student_id)).toFinset

/-- Spec side: the number of enrollment rows whose `course_code` matches. -/
def rowCount (enrollments : List Enrollment) (code : String) : Nat :=
  (enrollments.filter (fun e => decide (e.course_code = code))).length

/-- The data-model invariant: no duplicate (student, course) pair, and every
course's `enrolled` field is a set equal to the set of student ids having an
enrollment row for that course. -/
def EnrolledSync (st : RegState) : Prop :=
  st.enrollments.Pairwise (fun a b => pairKey a ≠ pairKey b) ∧
  ∀ code c, dictGet st.courses code = some c →
    c.enrolled = .eset (rowIds st.enrollments code)

theorem mem_rowIds (enrollments : List Enrollment) (code : String) (i : Int) :
    i ∈ rowIds enrollments code ↔
      ∃ e ∈ enrollments, e.student_id = i ∧ e.course_code = code := by
  simp only [rowIds, List.mem_toFinset, List.mem_map, List.mem_filter,
    decide_eq_true_eq]
  constructor
  · rintro ⟨e, ⟨he, hc⟩, hi⟩
    exact ⟨e, he, hi, hc⟩
  · rintro ⟨e, he, hi, hc⟩
    exact ⟨e, ⟨he, hc⟩, hi⟩

theorem rowIds_append_same (enrollments : List Enrollment) (sid : Int)
    (code : String) :
    rowIds (enrollments ++ [⟨sid, code, none⟩]) code =
      insert sid (rowIds enrollments code) := by
  ext i
  simp only [mem_rowIds, Finset.mem_insert, List.mem_append, List.mem_singleton]
  constructor
  · rintro ⟨e, (he | rfl), hi, hc⟩
    · exact Or.inr ⟨e, he, hi, hc⟩
    · exact Or.inl hi.symm
  · rintro (rfl | ⟨e, he, hi, hc⟩)
    · exact ⟨⟨i, code, none⟩, Or.inr rfl, rfl, rfl⟩
    · exact ⟨e, Or.inl he, hi, hc⟩

theorem rowIds_append_other (enrollments : List Enrollment) (sid : Int)
    (code code' : String) (h : code ≠ code') :
    rowIds (enrollments ++ [⟨sid, code, none⟩]) code' =
      rowIds enrollments code' := by
  ext i
  simp only [mem_rowIds, List.mem_append, List.mem_singleton]
  constructor
  · rintro ⟨e, (he | rfl), hi, hc⟩
    · exact ⟨e, he, hi, hc⟩
    · exact absurd hc h
  · rintro ⟨e, he, hi, hc⟩
    exact ⟨e, Or.inl he, hi, hc⟩

theorem card_rowIds_of_pairwise (enrollments : List Enrollment) (code : String)
    (h : enrollments.Pairwise (fun a b => pairKey a ≠ pairKey b)) :
    (rowIds enrollments code).card = rowCount enrollments code := by
  have hfil : (enrollments.filter (fun e => decide (e.course_code = code))).Pairwise
      (fun a b => a.student_id ≠ b.student_id) := by
    have hp := List.Pairwise.filter (p := fun e => decide (e.course_code = code)) h
    refine List.Pairwise.imp_of_mem ?_ hp
    intro a b ha hb hab
    have hca : a.course_code = code := by
      simpa using (List.mem_filter.mp ha).2
    have hcb : b.course_code = code := by
      simpa using (List.mem_filter.mp hb).2
    intro hsid
    exact hab (by simp [pairKey, hsid, hca, hcb])
  have hnd : ((enrollments.filter (fun e => decide (e.course_code = code))).map
      (·.student_id)).Nodup := by
    exact (List.pairwise_map).mpr hfil
  rw [rowIds, rowCount, List.toFinset_card_of_nodup hnd, List.length_map]

theorem enrolledSync_enroll (st : RegState) (sid : Int) (code : String)
    (h : EnrolledSync st) : EnrolledSync (enroll_student st sid code).2 := by
  obtain ⟨hpw, hsync⟩ := h
  unfold enroll_student
  cases hstu : dictGet st.students sid with
  | none => exact ⟨hpw, hsync⟩
  | some stu =>
    cases hcrs : dictGet st.courses code with
    | none => exact ⟨hpw, hsync⟩
    | some course =>
      dsimp only
      split_ifs with h1 h2 h3
      · exact ⟨hpw, hsync⟩
      · exact ⟨hpw, hsync⟩
      · exact ⟨hpw, hsync⟩
      · have hc : course.enrolled = .eset (rowIds st.enrollments code) :=
          hsync code course hcrs
        rw [hc]
        dsimp only
        constructor
        · rw [List.pairwise_append]
          refine ⟨hpw, List.pairwise_singleton _ _, ?_⟩
          intro a ha b hb
          have hb' : b = ⟨sid, code, none⟩ := List.mem_singleton.mp hb
          subst hb'
          intro hk
          apply h2
          rw [List.any_eq_true]
          refine ⟨a, ha, ?_⟩
          have h1 : a.student_id = sid := congrArg Prod.fst hk
          have h2 : a.course_code = code := congrArg Prod.snd hk
          simp [h1, h2]
        · intro code' c' hget
          rw [dictGet_dictUpdate] at hget
          by_cases hcc : code' = code
          · subst hcc
            rw [if_pos rfl, hcrs, Option.map_some'] at hget
            have hc' := Option.some.inj hget
            subst hc'
            dsimp only
            rw [rowIds_append_same]
          · rw [if_neg hcc] at hget
            have := hsync code' c' hget
            rw [this, rowIds_append_other]
            exact fun hcc' => hcc hcc'.symm

theorem enrolledSync_sampleState : EnrolledSync sampleState := by
  refine ⟨List.Pairwise.nil, ?_⟩
  intro code c h
  rw [show sampleState.courses = [("CS", sampleCourse)] from rfl,
    dictGet_cons] at h
  by_cases hcs : "CS" = code
  · rw [if_pos hcs] at h
    cases Option.some.inj h
    rfl
  · rw [if_neg hcs, dictGet_nil] at h
    cases h

/-- C1: starting from any state satisfying the data-model invariant, after
every sequence of `enroll` operations every course's `enrolled` field is a
set equal to the set of student ids having an enrollment row for that
course, and its size equals the number of enrollment rows whose
`course_code` matches. -/
theorem enroll_seq_enrolled_sync (st : RegState) (ops : List (Int × String))
    (h : EnrolledSync st) :
    EnrolledSync (enrollSeq st ops) ∧
    ∀ code c, dictGet (enrollSeq st ops).courses code = some c →
      c.enrolled = .eset (rowIds (enrollSeq st ops).enrollments code) ∧
      c.enrolled.size = rowCount (enrollSeq st ops).enrollments code := by
  have hseq : EnrolledSync (enrollSeq st ops) := by
    induction ops generalizing st with
    | nil => exact h
    | cons p rest ih => exact ih _ (enrolledSync_enroll st p.1 p.2 h)
  refine ⟨hseq, ?_⟩
  intro code c hget
  obtain ⟨hpw, hsync⟩ := hseq
  have hc := hsync code c hget
  refine ⟨hc, ?_⟩
  rw [hc]
  simpa [EnrolledVal.size] using
    card_rowIds_of_pairwise (enrollSeq st ops).enrollments code hpw

/-- Witness for C1 at a concrete state and a concrete operation sequence. -/
theorem enroll_seq_enrolled_sync_witness :
    EnrolledSync (enrollSeq sampleState [(1, "CS")]) ∧
    ∀ code c, dictGet (enrollSeq sampleState [(1, "CS")]).courses code = some c →
      c.enrolled = .eset (rowIds (enrollSeq sampleState [(1, "CS")]).enrollments code) ∧
      c.enrolled.size = rowCount (enrollSeq sampleState [(1, "CS")]).enrollments code :=
  enroll_seq_enrolled_sync sampleState [(1, "CS")] enrolledSync_sampleState

/-- C2: `enroll` evaluates its four checks in order — unknown
student/course, course full, duplicate pair, missing prerequisite — the
first failing check determines the outcome; every rejection leaves the
state unchanged, and success appends exactly one `grade = None` row, adds
the student to that course's `enrolled` set and touches nothing else. -/
theorem enroll_checks_order (st : RegState) (sid : Int) (code : String) :
    ((dictGet st.students sid = none ∨ dictGet st.courses code = none) →
      enroll_student st sid code = (.invalid, st)) ∧
    (∀ stu c, dictGet st.students sid = some stu →
      dictGet st.courses code = some c →
      ((c.capacity ≤ (c.enrolled.size : Int) →
          enroll_student st sid code = (.full, st)) ∧
       (((c.enrolled.size : Int) < c.capacity) →
          (∃ e ∈ st.enrollments, e.student_id = sid ∧ e.course_code = code) →
          enroll_student st sid code = (.already, st)) ∧
       (((c.enrolled.size : Int) < c.capacity) →
          (∀ e ∈ st.enrollments, ¬(e.student_id = sid ∧ e.course_code = code)) →
          (∃ pre ∈ c.prereqs, ∀ e ∈ st.enrollments,
            e.student_id = sid → e.course_code ≠ pre) →
          enroll_student st sid code = (.missingPre, st)) ∧
       (∀ s : Finset Int, c.enrolled = .eset s →
          ((c.enrolled.size : Int) < c.capacity) →
          (∀ e ∈ st.enrollments, ¬(e.student_id = sid ∧ e.course_code = code)) →
          (∀ pre ∈ c.prereqs, ∃ e ∈ st.enrollments,
            e.student_id = sid ∧ e.course_code = pre) →
          (enroll_student st sid code).1 = .ok ∧
          (enroll_student st sid code).2.students = st.students ∧
          (enroll_student st sid code).2.enrollments =
            st.enrollments ++ [⟨sid, code, none⟩] ∧
          dictGet (enroll_student st sid code).2.courses code =
            some { c with enrolled := .eset (insert sid s) } ∧
          ∀ code', code' ≠ code →
            dictGet (enroll_student st sid code).2.courses code' =
              dictGet st.courses code'))) := by
  constructor
  · intro h
    unfold enroll_student
    rcases h with h | h
    · rw [h]
    · rw [h]
      cases dictGet st.students sid <;> rfl
  · intro stu c hstu hcrs
    have hred : enroll_student st sid code =
        (if c.capacity ≤ (c.enrolled.size : Int) then
          (.full, st)
        else if st.enrollments.any
            (fun e => decide (e.student_id = sid ∧ e.course_code = code)) then
          (.already, st)
        else if c.prereqs.any (fun pre =>
            (st.enrollments.filter (fun e => decide (e.student_id = sid))).all
              (fun e => decide (e.course_code ≠ pre))) then
          (.missingPre, st)
        else
          match c.enrolled with
          | .eset s =>
            (.ok,
              { st with
                enrollments := st.enrollments ++ [⟨sid, code, none⟩],
                courses := dictUpdate st.courses code
                  (fun c0 => { c0 with enrolled := .eset (insert sid s) }) })
          | .elist _ =>
            (.attrError,
              { st with enrollments := st.enrollments ++ [⟨sid, code, none⟩] })) := by
      unfold enroll_student
      rw [hstu, hcrs]
    refine ⟨?_, ?_, ?_, ?_⟩
    · intro hfull
      rw [hred, if_pos hfull]
    · intro hlt hdup
      obtain ⟨e, he, hsid, hcode⟩ := hdup
      rw [hred, if_neg (not_le.mpr hlt), if_pos ?_]
      rw [List.any_eq_true]
      exact ⟨e, he, by simp [hsid, hcode]⟩
    · intro hlt hnodup hpre
      obtain ⟨pre, hmem, hnone⟩ := hpre
      rw [hred, if_neg (not_le.mpr hlt), if_neg ?_, if_pos ?_]
      · rw [List.any_eq_true]
        refine ⟨pre, hmem, ?_⟩
        rw [List.all_eq_true]
        intro e hef
        obtain ⟨he, hesid⟩ := List.mem_filter.mp hef
        simp only [decide_eq_true_eq] at hesid ⊢
        exact hnone e he hesid
      · rw [List.any_eq_true]
        rintro ⟨e, he, hprop⟩
        simp only [decide_eq_true_eq] at hprop
        exact hnodup e he hprop
    · intro s hs hlt hnodup hpreok
      have hany3 : c.prereqs.any (fun pre =>
          (st.enrollments.filter (fun e => decide (e.student_id = sid))).all
            (fun e => decide (e.course_code ≠ pre))) = false := by
        rw [List.any_eq_false]
        intro pre hmem hall
        obtain ⟨e, he, hsid, hcode⟩ := hpreok pre hmem
        rw [List.all_eq_true] at hall
        have hef : e ∈ st.enrollments.filter
            (fun e => decide (e.student_id = sid)) :=
          List.mem_filter.mpr ⟨he, by simp [hsid]⟩
        have := hall e hef
        simp only [decide_eq_true_eq] at this
        exact this hcode
      have hany2 : st.enrollments.any
          (fun e => decide (e.student_id = sid ∧ e.course_code = code)) = false := by
        rw [List.any_eq_false]
        intro e he
        simp only [decide_eq_true_eq]
        exact hnodup e he
      rw [hred, if_neg (not_le.mpr hlt)]
      rw [if_neg (by rw [hany2]; exact Bool.false_ne_true)]
      rw [if_neg (by rw [hany3]; exact Bool.false_ne_true)]
      rw [hs]
      refine ⟨rfl, rfl, rfl, ?_, ?_⟩
      · rw [show (RegState.courses
            { st with
              enrollments := st.enrollments ++ [⟨sid, code, none⟩],
              courses := dictUpdate st.courses code
                (fun c0 => { c0 with enrolled := .eset (insert sid s) }) }) =
            dictUpdate st.courses code
              (fun c0 => { c0 with enrolled := .eset (insert sid s) }) from rfl,
          dictGet_dictUpdate, if_pos rfl, hcrs]
        rfl
      · intro code' hne
        rw [show (RegState.courses
            { st with
              enrollments := st.enrollments ++ [⟨sid, code, none⟩],
              courses := dictUpdate st.courses code
                (fun c0 => { c0 with enrolled := .eset (insert sid s) }) }) =
            dictUpdate st.courses code
              (fun c0 => { c0 with enrolled := .eset (insert sid s) }) from rfl,
          dictGet_dictUpdate, if_neg hne]

/-- Witness for C2: at the sample state the success branch fires and
produces exactly the predicted state. -/
theorem enroll_checks_order_witness :
    (enroll_student sampleState 1 "CS").1 = .ok ∧
    (enroll_student sampleState 1 "CS").2.students = sampleState.students ∧
    (enroll_student sampleState 1 "CS").2.enrollments =
      sampleState.enrollments ++ [⟨1, "CS", none⟩] ∧
    dictGet (enroll_student sampleState 1 "CS").2.courses "CS" =
      some { sampleCourse with enrolled := .eset (insert 1 ∅) } := by
  have h := ((enroll_checks_order sampleState 1 "CS").2
    ⟨"Alice", 1, (39 : Rat) / 10⟩ sampleCourse rfl rfl).2.2.2
    ∅ rfl (by decide) (by decide) (by decide)
  exact ⟨h.1, h.2.1, h.2.2.1, h.2.2.2.1⟩

/-! ## `record_grade` lemmas -/

theorem setFirstGrade_eq_none (sid : Int) (code : String) (g : Rat)
    (l : List Enrollment)
    (h : ∀ e ∈ l, ¬(e.student_id = sid ∧ e.course_code = code)) :
    setFirstGrade sid code g l = none := by
  induction l with
  | nil => rfl
  | cons e rest ih =>
    rw [setFirstGrade, if_neg (h e (List.mem_cons_self e rest)),
      ih (fun e' he' => h e' (List.mem_cons_of_mem e he'))]
    rfl

theorem setFirstGrade_of_split (sid : Int) (code : String) (g : Rat)
    (pre post : List Enrollment) (mid : Enrollment)
    (hsid : mid.student_id = sid) (hcode : mid.course_code = code)
    (hpre : ∀ e ∈ pre, ¬(e.student_id = sid ∧ e.course_code = code)) :
    setFirstGrade sid code g (pre ++ mid :: post) =
      some (pre ++ { mid with grade := some g } :: post) := by
  induction pre with
  | nil => simp [setFirstGrade, hsid, hcode]
  | cons p rest ih =>
    rw [List.cons_append, setFirstGrade,
      if_neg (hpre p (List.mem_cons_self p rest)),
      ih (fun e' he' => hpre e' (List.mem_cons_of_mem p he'))]
    rfl

/-- C5: `recordGrade` reports not-found (and changes nothing) when no row
matches the pair; on the unique matching row two successive calls leave only
the latest grade, the pair's row count stays 1, and every other row and the
other two collections are untouched. -/
theorem record_grade_latest_wins (st : RegState) (sid : Int) (code : String)
    (g1 g2 : Rat) :
    ((∀ e ∈ st.enrollments, ¬(e.student_id = sid ∧ e.course_code = code)) →
      record_grade st sid code g1 = (false, st)) ∧
    (∀ pre mid post, st.enrollments = pre ++ mid :: post →
      mid.student_id = sid → mid.course_code = code →
      (∀ e ∈ pre ++ post, ¬(e.student_id = sid ∧ e.course_code = code)) →
      (record_grade st sid code g1).1 = true ∧
      (record_grade (record_grade st sid code g1).2 sid code g2).2.enrollments =
        pre ++ { mid with grade := some g2 } :: post ∧
      ((record_grade (record_grade st sid code g1).2 sid code g2).2.enrollments.countP
        (fun e => decide (e.student_id = sid ∧ e.course_code = code))) = 1 ∧
      (record_grade (record_grade st sid code g1).2 sid code g2).2.students =
        st.students ∧
      (record_grade (record_grade st sid code g1).2 sid code g2).2.courses =
        st.courses) := by
  constructor
  · intro h
    rw [record_grade, setFirstGrade_eq_none sid code g1 st.enrollments h]
  · intro pre mid post hsplit hsid hcode hno
    have hpre : ∀ e ∈ pre, ¬(e.student_id = sid ∧ e.course_code = code) :=
      fun e he => hno e (List.mem_append_left post he)
    have hpost : ∀ e ∈ post, ¬(e.student_id = sid ∧ e.course_code = code) :=
      fun e he => hno e (List.mem_append_right pre he)
    have h1 : record_grade st sid code g1 =
        (true, { st with enrollments := pre ++ { mid with grade := some g1 } :: post }) := by
      rw [record_grade, hsplit,
        setFirstGrade_of_split sid code g1 pre post mid hsid hcode hpre]
    have hmid2 : ({ mid with grade := some g1 } : Enrollment).student_id = sid := hsid
    have hmid2c : ({ mid with grade := some g1 } : Enrollment).course_code = code := hcode
    have h2 : record_grade (record_grade st sid code g1).2 sid code g2 =
        (true, { st with enrollments := pre ++ { mid with grade := some g2 } :: post }) := by
      rw [h1]
      rw [record_grade]
      rw [show ({ st with enrollments := pre ++ { mid with grade := some g1 } :: post } :
          RegState).enrollments = pre ++ { mid with grade := some g1 } :: post from rfl]
      rw [setFirstGrade_of_split sid code g2 pre post { mid with grade := some g1 }
        hmid2 hmid2c hpre]
    refine ⟨by rw [h1], ?_, ?_, ?_, ?_⟩
    · rw [h2]
    · rw [h2]
      rw [show ({ st with enrollments := pre ++ { mid with grade := some g2 } :: post } :
          RegState).enrollments = pre ++ { mid with grade := some g2 } :: post from rfl]
      rw [List.countP_append, List.countP_cons]
      rw [List.countP_eq_zero.mpr (by
        intro e he
        simpa using hpre e he)]
      rw [List.countP_eq_zero.mpr (by
        intro e he
        simpa using hpost e he)]
      simp [hsid, hcode]
    · rw [h2]
    · rw [h2]

/-- Witness for C5: recording 80 then 90 on the single row of `gradeState`
leaves exactly one row for the pair, holding 90. -/
theorem record_grade_latest_wins_witness :
    (record_grade (record_grade gradeState 1 "CS" 80).2 1 "CS" 90).2.enrollments =
      [⟨1, "CS", some 90⟩] ∧
    ((record_grade (record_grade gradeState 1 "CS" 80).2 1 "CS" 90).2.enrollments.countP
      (fun e => decide (e.student_id = 1 ∧ e.course_code = "CS"))) = 1 ∧
    (record_grade (record_grade gradeState 1 "CS" 80).2 1 "CS" 90).2.courses =
      gradeState.courses := by
  have h := (record_grade_latest_wins gradeState 1 "CS" 80 90).2
    [] ⟨1, "CS", none⟩ [] rfl rfl rfl (by decide)
  exact ⟨h.2.1, h.2.2.1, h.2.2.2.2⟩

/-! ## `transcript` lemmas -/

theorem transcriptRows_ok (courses : List (String × Course))
    (l : List Enrollment)
    (h : ∀ e ∈ l, ∃ c, dictGet courses e.course_code = some c) :
    transcriptRows courses l = .ok (l.map (fun e =>
      (e.course_code, ((dictGet courses e.course_code).map Course.title).getD "",
        e.grade))) := by
  induction l with
  | nil => rfl
  | cons e rest ih =>
    obtain ⟨c, hc⟩ := h e (List.mem_cons_self e rest)
    rw [transcriptRows, hc,
      ih (fun e' he' => h e' (List.mem_cons_of_mem e he'))]
    simp [hc, Except.map]

/-- C4: `transcript` is `NotFound` exactly when the student is absent;
otherwise (provided every enrollment row of the student references an
existing course) it returns the student's rows in order and the GPA is the
arithmetic mean of exactly the non-`None` grades, omitted when no graded
enrollment exists. -/
theorem transcript_spec (st : RegState) (sid : Int) :
    (dictGet st.students sid = none → transcript st sid = .notFound) ∧
    (∀ stu, dictGet st.students sid = some stu →
      (∀ e ∈ st.enrollments, e.student_id = sid →
        ∃ c, dictGet st.courses e.course_code = some c) →
      transcript st sid = .ok
        ((st.enrollments.filter (fun e => decide (e.student_id = sid))).map
          (fun e => (e.course_code,
            ((dictGet st.courses e.course_code).map Course.title).getD "",
            e.grade)))
        (if 0 < (studentGrades st sid).length then
          some ((studentGrades st sid).sum / ((studentGrades st sid).length : Rat))
        else none)) := by
  constructor
  · intro h
    rw [transcript, if_pos (by rw [h]; rfl)]
  · intro stu hstu hcourses
    rw [transcript, if_neg (by simp [hstu])]
    have hrows := transcriptRows_ok st.courses
      (st.enrollments.filter (fun e => decide (e.student_id = sid)))
      (fun e he => hcourses e (List.mem_filter.mp he).1
        (by simpa using (List.mem_filter.mp he).2))
    rw [hrows]
    rfl

/-- Witness for C4: graded 90 and 80 plus one ungraded row give GPA 85. -/
theorem transcript_spec_witness :
    transcript transcriptState 1 =
      .ok [("A", "Alg", some 90), ("B", "Bio", some 80), ("C", "Chem", none)]
        (some 85) := by
  have h := (transcript_spec transcriptState 1).2 ⟨"Alice", 1, 4⟩ rfl ?hc
  case hc =>
    intro e he hs
    fin_cases he <;> exact ⟨_, rfl⟩
  rw [h]
  have hg : studentGrades transcriptState 1 = [90, 80] := rfl
  rw [hg]
  norm_num [List.sum_cons]
  rfl

/-- C10: `transcript` performs the `courses[code]` lookup with no existence
guard: on a state whose enrollment row carries a course code absent from
the courses mapping, an existing student's transcript ends in an unhandled
`KeyError` rather than a typed outcome. -/
theorem transcript_keyError_on_dangling :
    dictGet danglingState.courses "GHOST" = none ∧
    dictGet danglingState.students 1 = some ⟨"Alice", 1, 4⟩ ∧
    transcript danglingState 1 = .keyError "GHOST" :=
  ⟨rfl, rfl, rfl⟩

/-- C7: for positive capacity the fill rate is
`len(enrolled) / capacity * 100` with the warning flag exactly on rates
strictly above 90 (so 9 of 10 gives 90.0 and no flag); zero capacity
raises `ZeroDivisionError` instead of returning a value. -/
theorem fill_rate_spec (c : Course) :
    (0 < c.capacity →
      fill_rate c =
        some ((c.enrolled.size : Rat) / (c.capacity : Rat) * 100,
          decide (90 < (c.enrolled.size : Rat) / (c.capacity : Rat) * 100))) ∧
    (∀ r b, fill_rate c = some (r, b) → (b = true ↔ 90 < r)) ∧
    (c.capacity = 10 → c.enrolled.size = 9 → fill_rate c = some (90, false)) ∧
    (c.capacity = 0 → fill_rate c = none) := by
  refine ⟨?_, ?_, ?_, ?_⟩
  · intro h
    rw [fill_rate, if_neg (ne_of_gt h)]
  · intro r b hb
    rw [fill_rate] at hb
    by_cases h0 : c.capacity = 0
    · rw [if_pos h0] at hb
      cases hb
    · rw [if_neg h0] at hb
      have h1 := congrArg Prod.fst (Option.some.inj hb)
      have h2 := congrArg Prod.snd (Option.some.inj hb)
      dsimp only at h1 h2
      rw [← h1, ← h2]
      exact decide_eq_true_iff
  · intro hcap hsize
    rw [fill_rate, if_neg (by rw [hcap]; norm_num), hcap, hsize]
    have hv : ((9 : Nat) : Rat) / ((10 : Int) : Rat) * 100 = 90 := by norm_num
    rw [hv]
    norm_num
  · intro h0
    rw [fill_rate, if_pos h0]

/-- Witness for C7: the 9-of-10 course reads 90.0 unflagged and the
zero-capacity course has no fill rate. -/
theorem fill_rate_spec_witness :
    fill_rate fullCourse = some (90, false) ∧ fill_rate zeroCourse = none :=
  ⟨(fill_rate_spec fullCourse).2.2.1 rfl rfl, (fill_rate_spec zeroCourse).2.2.2 rfl⟩

/-! ## Stable sort lemmas for the GPA analytics -/

theorem insertDescGpa_perm (x : Int × Student) (l : List (Int × Student)) :
    (insertDescGpa x l).Perm (x :: l) := by
  induction l with
  | nil => exact List.Perm.refl _
  | cons y ys ih =>
    rw [insertDescGpa]
    by_cases h : x.2.gpa < y.2.gpa
    · rw [if_pos h]
      exact (ih.cons y).trans (List.Perm.swap x y ys)
    · rw [if_neg h]

theorem insertDescGpa_sorted (x : Int × Student) (l : List (Int × Student))
    (h : l.Pairwise (fun a b => b.2.gpa ≤ a.2.gpa)) :
    (insertDescGpa x l).Pairwise (fun a b => b.2.gpa ≤ a.2.gpa) := by
  induction l with
  | nil => simp [insertDescGpa]
  | cons y ys ih =>
    rw [insertDescGpa]
    obtain ⟨hy, hys⟩ := List.pairwise_cons.mp h
    by_cases hlt : x.2.gpa < y.2.gpa
    · rw [if_pos hlt]
      refine List.pairwise_cons.mpr ⟨?_, ih hys⟩
      intro z hz
      have hz' := (insertDescGpa_perm x ys).mem_iff.mp hz
      rcases List.mem_cons.mp hz' with rfl | hz''
      · exact le_of_lt hlt
      · exact hy z hz''
    · rw [if_neg hlt]
      have hxy : y.2.gpa ≤ x.2.gpa := not_lt.mp hlt
      refine List.pairwise_cons.mpr ⟨?_, h⟩
      intro z hz
      rcases List.mem_cons.mp hz with rfl | hz'
      · exact hxy
      · exact le_trans (hy z hz') hxy

theorem insertDescGpa_filter_eq (x : Int × Student) (l : List (Int × Student))
    (g : Rat) (hx : x.2.gpa = g) :
    (insertDescGpa x l).filter (fun p => decide (p.2.gpa = g)) =
      x :: l.filter (fun p => decide (p.2.gpa = g)) := by
  induction l with
  | nil => simp [insertDescGpa, hx]
  | cons y ys ih =>
    rw [insertDescGpa]
    by_cases hlt : x.2.gpa < y.2.gpa
    · rw [if_pos hlt]
      have hy : ¬(y.2.gpa = g) := fun hyg =>
        absurd (hyg.trans hx.symm) (ne_of_gt hlt)
      rw [List.filter_cons_of_neg (by simp [hy]), ih,
        List.filter_cons_of_neg (by simp [hy])]
    · rw [if_neg hlt, List.filter_cons_of_pos (by simp [hx])]

theorem insertDescGpa_filter_ne (x : Int × Student) (l : List (Int × Student))
    (g : Rat) (hx : ¬(x.2.gpa = g)) :
    (insertDescGpa x l).filter (fun p => decide (p.2.gpa = g)) =
      l.filter (fun p => decide (p.2.gpa = g)) := by
  induction l with
  | nil => simp [insertDescGpa, hx]
  | cons y ys ih =>
    rw [insertDescGpa]
    by_cases hlt : x.2.gpa < y.2.gpa
    · rw [if_pos hlt]
      by_cases hy : y.2.gpa = g
      · rw [List.filter_cons_of_pos (by simp [hy]), ih,
          List.filter_cons_of_pos (by simp [hy])]
      · rw [List.filter_cons_of_neg (by simp [hy]), ih,
          List.filter_cons_of_neg (by simp [hy])]
    · rw [if_neg hlt, List.filter_cons_of_neg (by simp [hx])]

theorem sortStudentsByGpaDesc_perm (l : List (Int × Student)) :
    (sortStudentsByGpaDesc l).Perm l := by
  induction l with
  | nil => exact List.Perm.refl _
  | cons x xs ih =>
    have hstep : sortStudentsByGpaDesc (x :: xs) =
        insertDescGpa x (sortStudentsByGpaDesc xs) := rfl
    rw [hstep]
    exact (insertDescGpa_perm x _).trans (ih.cons x)

theorem sortStudentsByGpaDesc_sorted (l : List (Int × Student)) :
    (sortStudentsByGpaDesc l).Pairwise (fun a b => b.2.gpa ≤ a.2.gpa) := by
  induction l with
  | nil => exact List.Pairwise.nil
  | cons x xs ih =>
    exact insertDescGpa_sorted x (sortStudentsByGpaDesc xs) ih

theorem sortStudentsByGpaDesc_filter (l : List (Int × Student)) (g : Rat) :
    (sortStudentsByGpaDesc l).filter (fun p => decide (p.2.gpa = g)) =
      l.filter (fun p => decide (p.2.gpa = g)) := by
  induction l with
  | nil => rfl
  | cons x xs ih =>
    have hstep : sortStudentsByGpaDesc (x :: xs) =
        insertDescGpa x (sortStudentsByGpaDesc xs) := rfl
    rw [hstep]
    by_cases hx : x.2.gpa = g
    · rw [insertDescGpa_filter_eq x _ g hx, ih,
        List.filter_cons_of_pos (by simp [hx])]
    · rw [insertDescGpa_filter_ne x _ g hx, ih,
        List.filter_cons_of_neg (by simp [hx])]

/-- C8: `topStudentsByGpa(n)` is the first `n` entries of a permutation of
all students that is sorted descending by GPA and, for every GPA value,
preserves the original insertion order of the students holding it (a stable
sort); on {A: 3.9, B: 3.9, C: 3.5} inserted in order A, B, C the top 2 are
[A, B]. -/
theorem top_students_by_gpa_spec (students : List (Int × Student)) (n : Nat) :
    top_students_by_gpa students n = (sortStudentsByGpaDesc students).take n ∧
    (sortStudentsByGpaDesc students).Perm students ∧
    (sortStudentsByGpaDesc students).Pairwise (fun a b => b.2.gpa ≤ a.2.gpa) ∧
    (∀ g : Rat, (sortStudentsByGpaDesc students).filter
        (fun p => decide (p.2.gpa = g)) =
      students.filter (fun p => decide (p.2.gpa = g))) ∧
    top_students_by_gpa exampleStudents 2 =
      [(10, ⟨"A", 1, (39 : Rat) / 10⟩), (11, ⟨"B", 1, (39 : Rat) / 10⟩)] := by
  refine ⟨rfl, sortStudentsByGpaDesc_perm students,
    sortStudentsByGpaDesc_sorted students,
    fun g => sortStudentsByGpaDesc_filter students g, ?_⟩
  norm_num [top_students_by_gpa, sortStudentsByGpaDesc, insertDescGpa,
    exampleStudents]

/-! ## `save_courses` in-memory restoration -/

theorem mem_toFinset_enrolledToList (v : EnrolledVal) (i : Int) :
    i ∈ (enrolledToList v).toFinset ↔ v.memb i := by
  cases v with
  | eset s => simp [enrolledToList, EnrolledVal.memb, Finset.mem_sort]
  | elist l => simp [enrolledToList, EnrolledVal.memb]

/-- C9: after `save_courses` returns, every course's in-memory `enrolled`
field is a set with exactly the membership it had before the save, and
every other field (and the key order) is unchanged — the set→list encoding
step does not leak into the in-memory model. -/
theorem save_courses_restores_sets (courses : List (String × Course)) :
    List.Forall₂ (fun p q => p.1 = q.1 ∧
      q.2.title = p.2.title ∧ q.2.credits = p.2.credits ∧
      q.2.capacity = p.2.capacity ∧ q.2.prereqs = p.2.prereqs ∧
      ∃ s : Finset Int, q.2.enrolled = .eset s ∧
        ∀ i : Int, i ∈ s ↔ p.2.enrolled.memb i)
      courses (save_courses courses).2 := by
  induction courses with
  | nil => exact List.Forall₂.nil
  | cons p rest ih =>
    refine List.Forall₂.cons ⟨rfl, rfl, rfl, rfl, rfl, ?_⟩ ih
    exact ⟨(enrolledToList p.2.enrolled).toFinset, rfl,
      fun i => mem_toFinset_enrolledToList p.2.enrolled i⟩

/-- C3 (refuted — code bug in `load_courses`): students and enrollments
round-trip exactly (absent grades come back as `None`), but saving and
re-loading the courses leaves `enrolled` as the decoded JSON *list*:
`setdefault` only fires on an absent key, so the loaded course is not
equivalent to the original set-shaped one (membership is preserved, the
shape is not, and a later `enroll` on it raises `AttributeError`). -/
theorem course_round_trip_enrolled_left_as_list :
    load_students (some (save_students sampleState.students)) =
      sampleState.students ∧
    load_enrollments (some (save_enrollments [⟨1, "CS", some 90⟩, ⟨2, "CS", none⟩])) =
      [⟨1, "CS", some 90⟩, ⟨2, "CS", none⟩] ∧
    load_courses (some (some (save_courses [("CS", courseWithOne)]).1)) =
      [("CS", { courseWithOne with enrolled := .elist [1] })] ∧
    (∀ s : Finset Int, EnrolledVal.elist [1] ≠ .eset s) ∧
    courseWithOne.enrolled = .eset {1} := by
  refine ⟨rfl, rfl, ?_, fun s h => EnrolledVal.noConfusion h, rfl⟩
  simp [save_courses, courseWithOne, enrolledToList, Finset.sort_singleton,
    load_courses]

/-! ## Load-failure policy -/

theorem loadStudentsStep_malformed (acc : List (Int × Student))
    (row : StudentRow) (h : wellFormedStudentRow row = false) :
    loadStudentsStep acc row = acc := by
  rcases row with ⟨i, n, y, g⟩
  cases i <;> cases y <;> cases g <;>
    first
      | rfl
      | (exfalso; simp [wellFormedStudentRow] at h)

theorem foldl_loadStudentsStep_filter (rows : List StudentRow)
    (acc : List (Int × Student)) :
    rows.foldl loadStudentsStep acc =
      (rows.filter wellFormedStudentRow).foldl loadStudentsStep acc := by
  induction rows generalizing acc with
  | nil => rfl
  | cons r rest ih =>
    by_cases h : wellFormedStudentRow r = true
    · rw [List.foldl_cons, List.filter_cons_of_pos h, List.foldl_cons, ih]
    · have hf : wellFormedStudentRow r = false := Bool.eq_false_iff.mpr h
      rw [List.foldl_cons, loadStudentsStep_malformed acc r hf,
        List.filter_cons_of_neg (by simp [hf]), ih]

/-- C6: the load-failure policy is asymmetric.  Students: a missing file
gives an empty mapping, and rows failing conversion are skipped
independently, so the load equals the load of just the well-formed rows
(concretely, three valid rows with one malformed row interleaved load
exactly the three valid entries).  Courses: a missing file or any parse
failure abandons the whole load to an empty mapping, and a successful parse
loads every key — never a partial mapping. -/
theorem load_policy_asymmetry :
    load_students none = [] ∧
    (∀ rows : List StudentRow,
      load_students (some rows) =
        load_students (some (rows.filter wellFormedStudentRow))) ∧
    load_students (some
      [⟨some 1, "A", some 1, some 4⟩, ⟨none, "bad", some 2, some 3⟩,
       ⟨some 2, "B", some 2, some 3⟩, ⟨some 3, "C", some 3, some 2⟩]) =
      [(1, ⟨"A", 1, 4⟩), (2, ⟨"B", 2, 3⟩), (3, ⟨"C", 3, 2⟩)] ∧
    load_courses none = [] ∧
    load_courses (some none) = [] ∧
    (∀ j : List (String × JsonCourse),
      (load_courses (some (some j))).map Prod.fst = j.map Prod.fst) := by
  refine ⟨rfl, ?_, ?_, rfl, rfl, ?_⟩
  · intro rows
    exact foldl_loadStudentsStep_filter rows []
  · rfl
  · intro j
    simp [load_courses, List.map_map, Function.comp]
